import Mathlib

/-!
Verification of the Ticketime repository (TypeScript frontend of a
high-precision server clock synchroniser).

Shallow embedding conventions:
* TypeScript `number` is modelled as `ℚ`; the claims settled here concern
  order relations and exact arithmetic identities that are stable under
  this modelling.
* ISO-8601 `synced_at` strings are kept as `String`; where the code calls
  `new Date(s).getTime()` the standard-library parse is abstracted as an
  arbitrary function `parse : String → ℚ` giving epoch milliseconds.
* `Date.now()` is passed explicitly as a parameter `now : ℚ`.
* The Rust/Tauri synchronisation engine behind `invoke` is not part of the
  repository's source tree; where a claim depends on it, the relevant
  operation is modelled from the specification (each such definition is
  marked `Modelled from the spec:`).
-/

namespace Ticketime

/-- The `SyncPhase` union from `src/types/server.ts`
(`"latency_profiling" | "whole_second_offset" | "binary_search" |
"verification" | "complete"`). -/
inductive SyncPhase where
  | latencyProfiling
  | wholeSecondOffset
  | binarySearch
  | verification
  | complete
deriving DecidableEq, Repr

/-- The string value each `SyncPhase` variant has in the TypeScript union. -/
def SyncPhase.toStr : SyncPhase → String
  | .latencyProfiling => "latency_profiling"
  | .wholeSecondOffset => "whole_second_offset"
  | .binarySearch => "binary_search"
  | .verification => "verification"
  | .complete => "complete"

/-- Inverse of `SyncPhase.toStr`: recover the variant from its wire string. -/
def SyncPhase.ofStr : String → Option SyncPhase
  | "latency_profiling" => some .latencyProfiling
  | "whole_second_offset" => some .wholeSecondOffset
  | "binary_search" => some .binarySearch
  | "verification" => some .verification
  | "complete" => some .complete
  | _ => none

/-- The `LatencyProfile` interface from `src/types/server.ts`:
`{min, q1, median, mean, q3, max : number}`, all RTT statistics. -/
structure LatencyProfile where
  min : ℚ
  q1 : ℚ
  median : ℚ
  mean : ℚ
  q3 : ℚ
  max : ℚ
deriving DecidableEq, Repr

/-- The `SyncResult` interface from `src/types/server.ts`. -/
structure SyncResult where
  server_id : ℚ
  whole_second_offset : ℚ
  subsecond_offset : ℚ
  total_offset_ms : ℚ
  latency_profile : LatencyProfile
  verified : Bool
  synced_at : String
  duration_ms : ℚ
  phase_reached : SyncPhase
deriving DecidableEq, Repr

/-- The `Server` interface from `src/types/server.ts`. The `status` union
is kept as its wire string. -/
structure Server where
  id : ℚ
  url : String
  name : Option String
  offset_ms : Option ℚ
  last_sync_at : Option String
  created_at : String
  status : String
  extractor_type : String
deriving DecidableEq, Repr

/-- The `Settings` interface from `src/types/settings.ts`. The two union
fields (`theme`, `alert_method`) are kept as their wire strings;
`millisecond_precision` (`1 | 2 | 3`) is kept numeric. -/
structure Settings where
  theme : String
  min_request_interval_ms : ℚ
  health_resync_threshold : ℚ
  external_time_source : String
  show_milliseconds : Bool
  millisecond_precision : ℚ
  show_timezone_offset : Bool
  overlay_opacity : ℚ
  overlay_auto_hide : Bool
  overlay_always_on_top : Bool
  alert_intervals : List ℚ
  alert_method : String
  drift_warning_threshold_ms : ℚ
deriving DecidableEq, Repr

/-- The keys of the `Settings` interface from `src/types/settings.ts`,
in declaration order (this is the key set of the engine settings map). -/
def settingsKeys : List String :=
  ["theme", "min_request_interval_ms", "health_resync_threshold",
   "external_time_source", "show_milliseconds", "millisecond_precision",
   "show_timezone_offset", "overlay_opacity", "overlay_auto_hide",
   "overlay_always_on_top", "alert_intervals", "alert_method",
   "drift_warning_threshold_ms"]

/-- `DEFAULT_SETTINGS` from `src/types/settings.ts`. -/
def DEFAULT_SETTINGS : Settings where
  theme := "dark"
  min_request_interval_ms := 500
  health_resync_threshold := 50
  external_time_source := "ntp"
  show_milliseconds := true
  millisecond_precision := 3
  show_timezone_offset := false
  overlay_opacity := 75
  overlay_auto_hide := false
  overlay_always_on_top := true
  alert_intervals := [10, 5, 1]
  alert_method := "both"
  drift_warning_threshold_ms := 1000

/-- Modelled from the spec: the Phase 3 (Binary Search Refiner) state of the
synchronisation engine, which is not part of the frontend source tree.
Spec §4.6: "State: `L = 0`, `R = 1` (seconds); `iteration = 0`". The UI
receives this state through `phase_data.left_bound_ms` /
`right_bound_ms` / `iteration` (`SyncProgressPanel`, `BinarySearchViz`). -/
structure Phase3State where
  L : ℚ
  R : ℚ
  iteration : ℕ
deriving DecidableEq, Repr

/-- Modelled from the spec: the three possible comparisons of
`elapsed_server_seconds` with `elapsed_wall_seconds` in the Phase-3
decision rule (spec §4.6 step 4). `notTicked` = equal, `ticked` =
greater, `anomaly` = smaller (probe discarded). -/
inductive Phase3Outcome where
  | notTicked
  | ticked
  | anomaly
deriving DecidableEq, Repr

/-- Modelled from the spec: Phase 3 initial state, `L = 0`, `R = 1`,
`iteration = 0` (spec §4.6). -/
def phase3Init : Phase3State := ⟨0, 1, 0⟩

/-- Modelled from the spec: one Phase-3 iteration (spec §4.6 steps 1 and
4): `mid = (L + R) / 2`; on `notTicked` the boundary is later, so
`L ← mid`; on `ticked` the boundary is at or before `mid`, so `R ← mid`;
on `anomaly` the probe is discarded and the bounds do not move. -/
def phase3Step (st : Phase3State) (o : Phase3Outcome) : Phase3State :=
  let mid := (st.L + st.R) / 2
  match o with
  | .notTicked => ⟨mid, st.R, st.iteration + 1⟩
  | .ticked => ⟨st.L, mid, st.iteration + 1⟩
  | .anomaly => st

/-- Modelled from the spec: the Phase-3 state after a sequence of probe
outcomes, starting from `phase3Init`. -/
def runPhase3 (os : List Phase3Outcome) : Phase3State :=
  os.foldl phase3Step phase3Init

/-- Modelled from the spec: the sub-second offset produced by Phase 3 is
the midpoint of the final search interval (spec §4.6 step 7:
"`sub_offset = mid_of_final_interval`"). -/
def subOffset (st : Phase3State) : ℚ := (st.L + st.R) / 2

/-- The interval invariant `0 ≤ L < R ≤ 1` of a Phase-3 state. -/
def Phase3State.Inv (st : Phase3State) : Prop :=
  0 ≤ st.L ∧ st.L < st.R ∧ st.R ≤ 1

/-- Modelled from the spec: the `SyncResult` record assembled at the end
of a run by the engine, which is not part of the frontend source tree.
The run stores the Phase-2 whole-second offset, the Phase-3 sub-second
offset (midpoint of the final interval, in seconds), and the combined
total: spec §8 "`total_offset = whole_second_offset + sub_offset`" with
`total_offset_ms` expressed in milliseconds (glossary: "Offset — signed
difference `server_wall − local_wall` in milliseconds"). -/
def mkSyncResult (serverId : ℚ) (whole : ℤ) (st : Phase3State)
    (profile : LatencyProfile) (verified : Bool) (syncedAt : String)
    (durationMs : ℚ) (phase : SyncPhase) : SyncResult where
  server_id := serverId
  whole_second_offset := whole
  subsecond_offset := subOffset st
  total_offset_ms := ((whole : ℚ) + subOffset st) * 1000
  latency_profile := profile
  verified := verified
  synced_at := syncedAt
  duration_ms := durationMs
  phase_reached := phase

/-- JavaScript `Math.round`: round half toward positive infinity. -/
def jsRound (q : ℚ) : ℤ := ⌊q + 1/2⌋

/-- The jitter penalty term of `healthScore` in
`src/hooks/useServerMetrics.ts`: `Math.min(30, jitterRatio * 30)` where
`jitterRatio = profile.median > 0 ? iqr / profile.median : 0` and
`iqr = profile.q3 - profile.q1`. -/
def jitterPenalty (profile : LatencyProfile) : ℚ :=
  min 30 ((if 0 < profile.median
    then (profile.q3 - profile.q1) / profile.median else 0) * 30)

/-- The age penalty term of `healthScore` in
`src/hooks/useServerMetrics.ts`: `Math.min(40, ageHours * (40 / 24))`
where `ageHours = (Date.now() - new Date(synced_at).getTime()) /
(1000 * 60 * 60)`. `now` is `Date.now()` and `syncedAtMs` the parsed
`synced_at` in epoch milliseconds. -/
def agePenalty (now syncedAtMs : ℚ) : ℚ :=
  min 40 ((now - syncedAtMs) / (1000 * 60 * 60) * (40 / 24))

/-- The verification penalty term of `healthScore` in
`src/hooks/useServerMetrics.ts`: `latestResult.verified ? 0 : 20`. -/
def verificationPenalty (verified : Bool) : ℚ :=
  if verified then 0 else 20

/-- `healthScore` from `src/hooks/useServerMetrics.ts`: `0` with no
latest result, otherwise
`Math.max(0, Math.round(100 - jitterPenalty - agePenalty -
verificationPenalty))`. `parse` abstracts `new Date(·).getTime()`. -/
def healthScore (now : ℚ) (parse : String → ℚ) :
    Option SyncResult → ℤ
  | none => 0
  | some r =>
      max 0 (jsRound (100 - jitterPenalty r.latency_profile -
        agePenalty now (parse r.synced_at) -
        verificationPenalty r.verified))

/-- The regression points of `driftRate` in
`src/hooks/useServerMetrics.ts`: each history entry becomes
`(t, offset) = (new Date(r.synced_at).getTime(), r.total_offset_ms)`. -/
def driftPoints (parse : String → ℚ) (syncHistory : List SyncResult) :
    List (ℚ × ℚ) :=
  syncHistory.map (fun r => (parse r.synced_at, r.total_offset_ms))

/-- The regression denominator `n * sumTT - sumT * sumT` computed by
`driftRate` in `src/hooks/useServerMetrics.ts` (the sums are
`reduce`-style left folds over the points). -/
def driftDenom (parse : String → ℚ) (syncHistory : List SyncResult) : ℚ :=
  let points := driftPoints parse syncHistory
  let n : ℚ := points.length
  let sumT := points.foldl (fun s p => s + p.1) 0
  let sumTT := points.foldl (fun s p => s + p.1 * p.1) 0
  n * sumTT - sumT * sumT

/-- `driftRate` from `src/hooks/useServerMetrics.ts`: `null` for fewer
than two history entries; otherwise the least-squares slope
`(n * sumTO - sumT * sumO) / denom`, converted to ms/hr by `* 3600000`,
with `null` returned when the denominator is zero. -/
def driftRate (parse : String → ℚ) (syncHistory : List SyncResult) :
    Option ℚ :=
  if syncHistory.length < 2 then none
  else
    let points := driftPoints parse syncHistory
    let n : ℚ := points.length
    let sumT := points.foldl (fun s p => s + p.1) 0
    let sumO := points.foldl (fun s p => s + p.2) 0
    let sumTO := points.foldl (fun s p => s + p.1 * p.2) 0
    let sumTT := points.foldl (fun s p => s + p.1 * p.1) 0
    let denom := n * sumTT - sumT * sumT
    if denom = 0 then none
    else some ((n * sumTO - sumT * sumO) / denom * 3600000)

/-- `driftStatus` from `src/hooks/useServerMetrics.ts`: `"Unknown"` when
`driftRate` is `null`, else `"Stable"` iff `|driftRate| < 10`. -/
def driftStatus (parse : String → ℚ) (syncHistory : List SyncResult) :
    String :=
  match driftRate parse syncHistory with
  | none => "Unknown"
  | some d => if |d| < 10 then "Stable" else "Unstable"

/-- A latency profile with `q1 ≤ q3` used to evaluate the metrics hooks
on concrete inputs (`min 10, q1 12, median 20, mean 20, q3 24, max 40`,
as in the fixtures of the metrics test file). -/
def sampleProfile : LatencyProfile :=
  { min := 10, q1 := 12, median := 20, mean := 20, q3 := 24, max := 40 }

/-- A concrete verified `SyncResult` used to evaluate the metrics hooks. -/
def sampleResult : SyncResult :=
  { server_id := 1, whole_second_offset := 0, subsecond_offset := 0,
    total_offset_ms := 0, latency_profile := sampleProfile,
    verified := true, synced_at := "2024-01-01T00:00:00.000Z",
    duration_ms := 200, phase_reached := .complete }

/-- A concrete `SyncResult` with zero interquartile range, used as the
latest result in the health-score evaluation at a `synced_at` that
parses to one day after `Date.now()`. -/
def futureResult : SyncResult :=
  { server_id := 1, whole_second_offset := 0, subsecond_offset := 0,
    total_offset_ms := 0,
    latency_profile :=
      { min := 10, q1 := 12, median := 20, mean := 20, q3 := 12, max := 40 },
    verified := true, synced_at := "2026-01-02T00:00:00.000Z",
    duration_ms := 200, phase_reached := .complete }

/-- The control-plane error relevant to the modelled engine operations
(spec §7: "`Cancelled` / `AlreadyRunning` — control-plane errors"). -/
inductive SyncError where
  | alreadyRunning
deriving DecidableEq, Repr

/-- Modelled from the spec: `start_sync` on the engine side, which is not
part of the frontend source tree. Spec §4.8: "Enforces: at most one
active run per `ServerTarget`; a second `start_sync` on the same target
returns `AlreadyRunning`." The active-runs map is modelled as the list of
server ids with an active run; a call on an already-active id fails with
`alreadyRunning` and starts nothing, otherwise the id becomes active. -/
def startSyncRun (active : List ℚ) (id : ℚ) :
    Except SyncError (List ℚ) :=
  if id ∈ active then .error .alreadyRunning else .ok (id :: active)

/-- The server list together with the engine's active-runs map, the state
acted on by `delete_server`. -/
structure EngineState where
  servers : List Server
  active : List ℚ
deriving DecidableEq, Repr

/-- `delete_server`: the store removes exactly the record with the given
id (`removeServer` in `src/stores/serverStore.ts`:
`get().servers.filter((s) => s.id !== id)`); modelled from the spec for
the engine side, which "also terminates any active sync" (§6), the id is
removed from the active-runs map. -/
def deleteServer (st : EngineState) (id : ℚ) : EngineState where
  servers := st.servers.filter (fun s => s.id ≠ id)
  active := st.active.filter (fun j => j ≠ id)

/-- The "newest first" ordering on sync results used by
`get_sync_history`: `a` precedes `b` when `a`'s `synced_at` is at least
`b`'s. `parse` abstracts reading `synced_at` as an epoch timestamp. -/
def newestFirst (parse : String → ℚ) (a b : SyncResult) : Prop :=
  parse b.synced_at ≤ parse a.synced_at

instance (parse : String → ℚ) : DecidableRel (newestFirst parse) :=
  fun a b =>
    inferInstanceAs (Decidable (parse b.synced_at ≤ parse a.synced_at))

instance (parse : String → ℚ) : IsTotal SyncResult (newestFirst parse) :=
  ⟨fun _ _ => le_total _ _⟩

instance (parse : String → ℚ) : IsTrans SyncResult (newestFirst parse) :=
  ⟨fun _ _ _ hab hbc => le_trans hbc hab⟩

/-- The row filter of `get_sync_history`: the stored result belongs to
the requested server and, when `since` is given, is not older than it. -/
def historyMatches (parse : String → ℚ) (id : ℚ) (since : Option ℚ)
    (r : SyncResult) : Bool :=
  decide (r.server_id = id) &&
    (match since with
     | none => true
     | some t => decide (t ≤ parse r.synced_at))

/-- Modelled from the spec: `get_sync_history` on the engine side, which
is not part of the frontend source tree. Spec §6: "get_sync_history |
server id, optional since, optional limit | sequence of SyncResult |
newest first". The stored results are filtered to the requested server
and the optional `since` bound, ordered newest first by `synced_at`, and
truncated to the optional `limit`. -/
def getSyncHistory (parse : String → ℚ) (store : List SyncResult)
    (id : ℚ) (since : Option ℚ) (limit : Option ℕ) : List SyncResult :=
  let sorted := List.insertionSort (newestFirst parse)
    (store.filter (historyMatches parse id since))
  sorted.take (limit.getD sorted.length)

/-- A stored result for server 1 with the older timestamp, used to
evaluate `get_sync_history` on a concrete store. -/
def historyResultA : SyncResult :=
  { sampleResult with synced_at := "2024-01-01T00:00:00.000Z" }

/-- A stored result for server 1 with the newer timestamp, used to
evaluate `get_sync_history` on a concrete store. -/
def historyResultB : SyncResult :=
  { sampleResult with synced_at := "2024-01-02T00:00:00.000Z" }

/-- A concrete stand-in for `new Date(·).getTime()` on the two sample
timestamps. -/
def sampleParse : String → ℚ :=
  fun s => if s = "2024-01-02T00:00:00.000Z" then 200 else 100

/-- A concrete registered server record. -/
def sampleServer : Server :=
  { id := 2, url := "https://example.com", name := none,
    offset_ms := none, last_sync_at := none,
    created_at := "2024-01-01T00:00:00.000Z", status := "idle",
    extractor_type := "date-header" }

/-- The median of a sorted rational list (`0` for the empty list): the
middle element at odd length, the mean of the two middle elements at
even length. -/
def medianOf (l : List ℚ) : ℚ :=
  if l.length % 2 = 1 then l.getD (l.length / 2) 0
  else (l.getD (l.length / 2 - 1) 0 + l.getD (l.length / 2) 0) / 2

/-- Modelled from the spec: the Phase-1 five-number summary of the RTT
sample, computed by the engine's Latency Profiler, which is not part of
the frontend source tree. The RTTs are sorted; `Q1` and `Q3` are "the
lower and upper median of the sorted halves (inclusive of the overall
median when N is odd)" (spec §3); the `mean` additionally fills the
`mean` field carried by the frontend `LatencyProfile` type. -/
def computeLatencyProfile (rtts : List ℚ) : LatencyProfile :=
  let s := List.insertionSort (· ≤ ·) rtts
  let n := s.length
  { min := s.getD 0 0
    q1 := medianOf (s.take ((n + 1) / 2))
    median := medianOf s
    mean := s.foldl (· + ·) 0 / n
    q3 := medianOf (s.drop (n / 2))
    max := s.getD (n - 1) 0 }

/-- JSON values: the value layer that `JSON.stringify(results, null, 2)`
prints and `JSON.parse` reads back (the textual printing/lexing is the
JavaScript standard library's; the repository's data round-trips through
this value form). -/
inductive Json where
  | null
  | bool (b : Bool)
  | num (q : ℚ)
  | str (s : String)
  | arr (xs : List Json)
  | obj (fields : List (String × Json))

/-- The JSON object `JSON.stringify` produces for a `LatencyProfile`,
fields in declaration order. -/
def encodeLatencyProfile (p : LatencyProfile) : Json :=
  .obj [("min", .num p.min), ("q1", .num p.q1),
    ("median", .num p.median), ("mean", .num p.mean),
    ("q3", .num p.q3), ("max", .num p.max)]

/-- Reading a parsed JSON value back as a `LatencyProfile`. -/
def decodeLatencyProfile : Json → Option LatencyProfile
  | .obj [("min", .num mn), ("q1", .num q1), ("median", .num md),
      ("mean", .num me), ("q3", .num q3), ("max", .num mx)] =>
      some ⟨mn, q1, md, me, q3, mx⟩
  | _ => none

/-- The JSON object `JSON.stringify` produces for a `SyncResult`, fields
in declaration order, with the `phase_reached` union as its wire
string. -/
def encodeSyncResult (r : SyncResult) : Json :=
  .obj [("server_id", .num r.server_id),
    ("whole_second_offset", .num r.whole_second_offset),
    ("subsecond_offset", .num r.subsecond_offset),
    ("total_offset_ms", .num r.total_offset_ms),
    ("latency_profile", encodeLatencyProfile r.latency_profile),
    ("verified", .bool r.verified),
    ("synced_at", .str r.synced_at),
    ("duration_ms", .num r.duration_ms),
    ("phase_reached", .str r.phase_reached.toStr)]

/-- Reading a parsed JSON value back as a `SyncResult`. -/
def decodeSyncResult : Json → Option SyncResult
  | .obj [("server_id", .num sid),
      ("whole_second_offset", .num w),
      ("subsecond_offset", .num sub),
      ("total_offset_ms", .num tot),
      ("latency_profile", lp),
      ("verified", .bool v),
      ("synced_at", .str sa),
      ("duration_ms", .num d),
      ("phase_reached", .str ph)] =>
      match decodeLatencyProfile lp, SyncPhase.ofStr ph with
      | some profile, some phase =>
          some ⟨sid, w, sub, tot, profile, v, sa, d, phase⟩
      | _, _ => none
  | _ => none

/-- Reading each element of a parsed JSON array back as a `SyncResult`,
failing if any element fails. -/
def decodeSyncResults : List Json → Option (List SyncResult)
  | [] => some []
  | x :: xs =>
      match decodeSyncResult x, decodeSyncResults xs with
      | some r, some rs => some (r :: rs)
      | _, _ => none

/-- `syncHistoryToJson` from the history-export module:
`JSON.stringify(results, null, 2)`, at the value level the array of the
per-result objects. -/
def syncHistoryToJson (results : List SyncResult) : Json :=
  .arr (results.map encodeSyncResult)

/-- Parsing the serialisation back: `JSON.parse` yields the array, whose
elements are read back as `SyncResult`s. -/
def parseSyncHistory : Json → Option (List SyncResult)
  | .arr xs => decodeSyncResults xs
  | _ => none

/-! ## Theorems -/

/-- `SyncPhase.ofStr` inverts `SyncPhase.toStr`. -/
lemma SyncPhase.ofStr_toStr (p : SyncPhase) : SyncPhase.ofStr p.toStr = some p := by
  cases p <;> rfl

/-- `decodeLatencyProfile` inverts `encodeLatencyProfile`. -/
lemma decodeLatencyProfile_encode (p : LatencyProfile) :
    decodeLatencyProfile (encodeLatencyProfile p) = some p := rfl

/-- `decodeSyncResult` inverts `encodeSyncResult`. -/
lemma decodeSyncResult_encode (r : SyncResult) :
    decodeSyncResult (encodeSyncResult r) = some r := by
  simp only [encodeSyncResult, decodeSyncResult,
    decodeLatencyProfile_encode, SyncPhase.ofStr_toStr]

/-- Indexing into a sorted list of rationals is monotone. -/
lemma sorted_getD_mono {l : List ℚ} (hs : l.Sorted (· ≤ ·)) {i j : ℕ}
    (hij : i ≤ j) (hj : j < l.length) : l.getD i 0 ≤ l.getD j 0 := by
  have hi : i < l.length := Nat.lt_of_le_of_lt hij hj
  rw [List.getD_eq_getElem l 0 hi, List.getD_eq_getElem l 0 hj]
  rcases Nat.lt_or_ge i j with h | h
  · have := hs.rel_get_of_lt (a := ⟨i, hi⟩) (b := ⟨j, hj⟩)
      (by simpa using h)
    simpa using this
  · have hij' : i = j := le_antisymm hij h
    subst hij'
    exact le_refl _

/-- The median of a sorted nonempty list lies between its first and last
elements. -/
lemma medianOf_bounds {l : List ℚ} (hs : l.Sorted (· ≤ ·))
    (hl : 0 < l.length) :
    l.getD 0 0 ≤ medianOf l ∧ medianOf l ≤ l.getD (l.length - 1) 0 := by
  unfold medianOf
  split_ifs with hpar
  · exact ⟨sorted_getD_mono hs (by omega) (by omega),
      sorted_getD_mono hs (by omega) (by omega)⟩
  · have h01 : l.getD 0 0 ≤ l.getD (l.length / 2 - 1) 0 :=
      sorted_getD_mono hs (by omega) (by omega)
    have h12 : l.getD (l.length / 2 - 1) 0 ≤ l.getD (l.length / 2) 0 :=
      sorted_getD_mono hs (by omega) (by omega)
    have h23 : l.getD (l.length / 2) 0 ≤ l.getD (l.length - 1) 0 :=
      sorted_getD_mono hs (by omega) (by omega)
    constructor <;> linarith

/-- In a sorted list the last element of the lower half is at most the
median. -/
lemma lower_half_le_medianOf {l : List ℚ} (hs : l.Sorted (· ≤ ·))
    (hl : 0 < l.length) :
    l.getD ((l.length + 1) / 2 - 1) 0 ≤ medianOf l := by
  unfold medianOf
  split_ifs with hpar
  · exact sorted_getD_mono hs (by omega) (by omega)
  · have h12 : l.getD (l.length / 2 - 1) 0 ≤ l.getD (l.length / 2) 0 :=
      sorted_getD_mono hs (by omega) (by omega)
    have he : (l.length + 1) / 2 - 1 = l.length / 2 - 1 := by omega
    rw [he]
    linarith

/-- In a sorted list the median is at most the first element of the
upper half. -/
lemma medianOf_le_upper_half {l : List ℚ} (hs : l.Sorted (· ≤ ·))
    (hl : 0 < l.length) :
    medianOf l ≤ l.getD (l.length / 2) 0 := by
  unfold medianOf
  split_ifs with hpar
  · exact le_refl _
  · have h12 : l.getD (l.length / 2 - 1) 0 ≤ l.getD (l.length / 2) 0 :=
      sorted_getD_mono hs (by omega) (by omega)
    linarith

/-- `getD` on a prefix agrees with `getD` on the list. -/
lemma getD_take_eq (l : List ℚ) (m i : ℕ) (hi : i < m)
    (hil : i < l.length) : (l.take m).getD i 0 = l.getD i 0 := by
  have h1 : i < (l.take m).length := by
    simp only [List.length_take]
    omega
  rw [List.getD_eq_getElem _ 0 h1, List.getD_eq_getElem l 0 hil,
    List.getElem_take]

/-- `getD` on a drop agrees with shifted `getD` on the list. -/
lemma getD_drop_eq (l : List ℚ) (k i : ℕ) (h : k + i < l.length) :
    (l.drop k).getD i 0 = l.getD (k + i) 0 := by
  have h1 : i < (l.drop k).length := by
    simp only [List.length_drop]
    omega
  rw [List.getD_eq_getElem _ 0 h1, List.getD_eq_getElem l 0 h,
    List.getElem_drop]

/-- The five-number chain on any sorted nonempty list: first element ≤
lower-half median ≤ median ≤ upper-half median ≤ last element. -/
lemma five_number_chain {s : List ℚ} (hs : s.Sorted (· ≤ ·))
    (hn : 0 < s.length) :
    s.getD 0 0 ≤ medianOf (s.take ((s.length + 1) / 2)) ∧
    medianOf (s.take ((s.length + 1) / 2)) ≤ medianOf s ∧
    medianOf s ≤ medianOf (s.drop (s.length / 2)) ∧
    medianOf (s.drop (s.length / 2)) ≤ s.getD (s.length - 1) 0 := by
  have hts : (s.take ((s.length + 1) / 2)).Sorted (· ≤ ·) :=
    List.Pairwise.sublist (List.take_sublist _ _) hs
  have hds : (s.drop (s.length / 2)).Sorted (· ≤ ·) :=
    List.Pairwise.sublist (List.drop_sublist _ _) hs
  have htlen : (s.take ((s.length + 1) / 2)).length = (s.length + 1) / 2 := by
    simp only [List.length_take]
    omega
  have hdlen : (s.drop (s.length / 2)).length = s.length - s.length / 2 := by
    simp only [List.length_drop]
  have htpos : 0 < (s.take ((s.length + 1) / 2)).length := by omega
  have hdpos : 0 < (s.drop (s.length / 2)).length := by omega
  have htb := medianOf_bounds hts htpos
  have hdb := medianOf_bounds hds hdpos
  refine ⟨?_, ?_, ?_, ?_⟩
  · have h0 : (s.take ((s.length + 1) / 2)).getD 0 0 = s.getD 0 0 :=
      getD_take_eq s _ 0 (by omega) (by omega)
    calc s.getD 0 0 = (s.take ((s.length + 1) / 2)).getD 0 0 := h0.symm
      _ ≤ medianOf (s.take ((s.length + 1) / 2)) := htb.1
  · have hlast : (s.take ((s.length + 1) / 2)).getD
        ((s.take ((s.length + 1) / 2)).length - 1) 0 =
        s.getD ((s.length + 1) / 2 - 1) 0 := by
      rw [htlen]
      exact getD_take_eq s _ _ (by omega) (by omega)
    calc medianOf (s.take ((s.length + 1) / 2))
        ≤ (s.take ((s.length + 1) / 2)).getD
            ((s.take ((s.length + 1) / 2)).length - 1) 0 := htb.2
      _ = s.getD ((s.length + 1) / 2 - 1) 0 := hlast
      _ ≤ medianOf s := lower_half_le_medianOf hs hn
  · have hhead : (s.drop (s.length / 2)).getD 0 0 =
        s.getD (s.length / 2) 0 := by
      have h := getD_drop_eq s (s.length / 2) 0 (by omega)
      simp only [Nat.add_zero] at h
      exact h
    calc medianOf s ≤ s.getD (s.length / 2) 0 :=
          medianOf_le_upper_half hs hn
      _ = (s.drop (s.length / 2)).getD 0 0 := hhead.symm
      _ ≤ medianOf (s.drop (s.length / 2)) := hdb.1
  · have hlast : (s.drop (s.length / 2)).getD
        ((s.drop (s.length / 2)).length - 1) 0 =
        s.getD (s.length - 1) 0 := by
      rw [hdlen]
      have := getD_drop_eq s (s.length / 2)
        (s.length - s.length / 2 - 1) (by omega)
      rw [this]
      congr 1
      omega
    calc medianOf (s.drop (s.length / 2))
        ≤ (s.drop (s.length / 2)).getD
            ((s.drop (s.length / 2)).length - 1) 0 := hdb.2
      _ = s.getD (s.length - 1) 0 := hlast

/-- C3: every latency profile computed from a nonempty RTT sample
satisfies `min ≤ q1 ≤ median ≤ q3 ≤ max`, where `q1` and `q3` are the
lower and upper medians of the sorted halves of the sample (inclusive of
the overall median when the sample count is odd). -/
theorem latencyProfile_five_number_order (rtts : List ℚ)
    (h : rtts ≠ []) :
    (computeLatencyProfile rtts).min ≤ (computeLatencyProfile rtts).q1 ∧
    (computeLatencyProfile rtts).q1 ≤
      (computeLatencyProfile rtts).median ∧
    (computeLatencyProfile rtts).median ≤
      (computeLatencyProfile rtts).q3 ∧
    (computeLatencyProfile rtts).q3 ≤ (computeLatencyProfile rtts).max := by
  have hs : (List.insertionSort (· ≤ ·) rtts).Sorted (· ≤ ·) :=
    List.sorted_insertionSort _ rtts
  have hn : 0 < (List.insertionSort (· ≤ ·) rtts).length := by
    rw [List.length_insertionSort]
    exact List.length_pos.mpr h
  have hchain := five_number_chain hs hn
  simpa only [computeLatencyProfile] using hchain

/-- Witness for C3 on a concrete five-element sample. -/
theorem latencyProfile_five_number_order_witness :
    (computeLatencyProfile [20, 10, 40, 12, 24]).min ≤
      (computeLatencyProfile [20, 10, 40, 12, 24]).q1 ∧
    (computeLatencyProfile [20, 10, 40, 12, 24]).q1 ≤
      (computeLatencyProfile [20, 10, 40, 12, 24]).median ∧
    (computeLatencyProfile [20, 10, 40, 12, 24]).median ≤
      (computeLatencyProfile [20, 10, 40, 12, 24]).q3 ∧
    (computeLatencyProfile [20, 10, 40, 12, 24]).q3 ≤
      (computeLatencyProfile [20, 10, 40, 12, 24]).max :=
  latencyProfile_five_number_order [20, 10, 40, 12, 24] (by simp)

/-- A single Phase-3 step preserves the interval invariant, narrows the
interval monotonically, and halves it exactly on accepted decisions. -/
lemma phase3Step_inv (st : Phase3State) (o : Phase3Outcome)
    (h : st.Inv) :
    (phase3Step st o).Inv ∧
    st.L ≤ (phase3Step st o).L ∧ (phase3Step st o).R ≤ st.R ∧
    (phase3Step st o).R - (phase3Step st o).L ≤ st.R - st.L ∧
    (o ≠ .anomaly →
      (phase3Step st o).R - (phase3Step st o).L = (st.R - st.L) / 2) := by
  obtain ⟨h0, hLR, h1⟩ := h
  cases o with
  | notTicked =>
      refine ⟨⟨by simp [phase3Step]; linarith, by simp [phase3Step]; linarith,
          by simp [phase3Step]; linarith⟩,
        by simp [phase3Step]; linarith, by simp [phase3Step],
        by simp [phase3Step]; linarith, fun _ => by simp [phase3Step]; ring⟩
  | ticked =>
      refine ⟨⟨by simp [phase3Step]; linarith, by simp [phase3Step]; linarith,
          by simp [phase3Step]; linarith⟩,
        by simp [phase3Step], by simp [phase3Step]; linarith,
        by simp [phase3Step]; linarith, fun _ => by simp [phase3Step]; ring⟩
  | anomaly =>
      exact ⟨⟨h0, hLR, h1⟩, le_refl _, le_refl _, le_refl _,
        fun hc => absurd rfl hc⟩

/-- Every state reachable by `runPhase3` satisfies the interval
invariant `0 ≤ L < R ≤ 1`. -/
lemma runPhase3_inv (os : List Phase3Outcome) : (runPhase3 os).Inv := by
  suffices h : ∀ st : Phase3State, st.Inv →
      (os.foldl phase3Step st).Inv by
    exact h phase3Init ⟨le_refl 0, by norm_num [phase3Init], le_refl 1⟩
  induction os with
  | nil => intro st h; exact h
  | cons o os ih =>
      intro st h
      exact ih _ (phase3Step_inv st o h).1

/-- C1: During Phase 3, for every iteration the bounds satisfy
`L_i ≤ L_{i+1} < R_{i+1} ≤ R_i` with `[L, R)` contained in `[0, 1)`; the
interval width is monotonically non-increasing over iterations and is
halved exactly (so it decreases by at least a factor of 2) on every
iteration whose decision is accepted, i.e. not an anomaly. -/
theorem phase3_interval_invariant (os : List Phase3Outcome)
    (o : Phase3Outcome) :
    0 ≤ (runPhase3 os).L ∧
    (runPhase3 os).L ≤ (runPhase3 (os ++ [o])).L ∧
    (runPhase3 (os ++ [o])).L < (runPhase3 (os ++ [o])).R ∧
    (runPhase3 (os ++ [o])).R ≤ (runPhase3 os).R ∧
    (runPhase3 os).R ≤ 1 ∧
    (runPhase3 (os ++ [o])).R - (runPhase3 (os ++ [o])).L ≤
      (runPhase3 os).R - (runPhase3 os).L ∧
    (o ≠ .anomaly →
      (runPhase3 (os ++ [o])).R - (runPhase3 (os ++ [o])).L =
        ((runPhase3 os).R - (runPhase3 os).L) / 2) := by
  have hInv := runPhase3_inv os
  have hrun : runPhase3 (os ++ [o]) = phase3Step (runPhase3 os) o := by
    simp [runPhase3, List.foldl_append]
  have hstep := phase3Step_inv (runPhase3 os) o hInv
  rw [hrun]
  exact ⟨hInv.1, hstep.2.1, (hstep.1).2.1, hstep.2.2.1, hInv.2.2,
    hstep.2.2.2.1, hstep.2.2.2.2⟩

/-- Witness for C1 at a concrete run: one accepted `ticked` decision after
a `notTicked` baseline halves the interval width from 1/2 to 1/4. -/
theorem phase3_interval_invariant_witness :
    (runPhase3 [Phase3Outcome.notTicked, Phase3Outcome.ticked]).R -
      (runPhase3 [Phase3Outcome.notTicked, Phase3Outcome.ticked]).L =
      ((runPhase3 [Phase3Outcome.notTicked]).R -
        (runPhase3 [Phase3Outcome.notTicked]).L) / 2 :=
  (phase3_interval_invariant [Phase3Outcome.notTicked]
    Phase3Outcome.ticked).2.2.2.2.2.2 (by decide)

/-- C2: every `SyncResult` assembled from a run has a `subsecond_offset`
in `[0, 1)` seconds, and `total_offset_ms` equals the whole-second offset
plus the sub-second offset, each expressed in milliseconds, exactly
(hence in particular to within 1 ms). -/
theorem syncResult_offset_decomposition (serverId : ℚ) (whole : ℤ)
    (os : List Phase3Outcome) (profile : LatencyProfile) (verified : Bool)
    (syncedAt : String) (durationMs : ℚ) (phase : SyncPhase) :
    0 ≤ (mkSyncResult serverId whole (runPhase3 os) profile verified
          syncedAt durationMs phase).subsecond_offset ∧
    (mkSyncResult serverId whole (runPhase3 os) profile verified
          syncedAt durationMs phase).subsecond_offset < 1 ∧
    (mkSyncResult serverId whole (runPhase3 os) profile verified
          syncedAt durationMs phase).total_offset_ms =
      (mkSyncResult serverId whole (runPhase3 os) profile verified
          syncedAt durationMs phase).whole_second_offset * 1000 +
      (mkSyncResult serverId whole (runPhase3 os) profile verified
          syncedAt durationMs phase).subsecond_offset * 1000 := by
  obtain ⟨h0, hLR, h1⟩ := runPhase3_inv os
  refine ⟨?_, ?_, ?_⟩
  · simp only [mkSyncResult, subOffset]
    linarith
  · simp only [mkSyncResult, subOffset]
    linarith
  · simp only [mkSyncResult]
    ring

/-- C8 counterexample: the settings map of `src/types/settings.ts` has no
key named `health_resync_threshold_ms`; the code's key is
`health_resync_threshold`, without the `_ms` suffix. -/
theorem settingsKeys_no_health_resync_threshold_ms :
    settingsKeys.contains "health_resync_threshold_ms" = false := by
  decide

/-- C8 (amended): the settings map contains at minimum the keys
`min_request_interval_ms`, `health_resync_threshold`,
`external_time_source` and `drift_warning_threshold_ms`, and the default
value of `min_request_interval_ms` is 500. -/
theorem settingsKeys_required_and_default :
    settingsKeys.contains "min_request_interval_ms" = true ∧
    settingsKeys.contains "health_resync_threshold" = true ∧
    settingsKeys.contains "external_time_source" = true ∧
    settingsKeys.contains "drift_warning_threshold_ms" = true ∧
    DEFAULT_SETTINGS.min_request_interval_ms = 500 :=
  ⟨by decide, by decide, by decide, by decide, rfl⟩

/-- C9 counterexample: with `Date.now() = 0` and a latest result whose
`synced_at` parses to one day later (epoch 86400000 ms), the age penalty
is `min 40 (−40) = −40` and the health score evaluates to `140 > 100`,
so the score is not bounded by 100 over all inputs. -/
theorem healthScore_exceeds_100 :
    100 < healthScore 0 (fun _ => 86400000) (some futureResult) := by
  have h : healthScore 0 (fun _ => 86400000) (some futureResult) = 140 := by
    unfold healthScore jitterPenalty agePenalty verificationPenalty
      jsRound futureResult
    norm_num
  rw [h]
  norm_num

/-- C9 (amended): the health score is an integer that is 0 when no latest
result exists and at least 10 whenever one exists (the three penalties
are capped at 30, 40 and 20); it is bounded above by 100 provided the
latest result's `synced_at` does not parse to a time after `Date.now()`
and its jitter penalty is non-negative (`q1 ≤ q3`, or `median ≤ 0` which
zeroes the jitter ratio). -/
theorem healthScore_range (now : ℚ) (parse : String → ℚ)
    (r : SyncResult) :
    healthScore now parse none = 0 ∧
    0 ≤ healthScore now parse (some r) ∧
    10 ≤ healthScore now parse (some r) ∧
    (parse r.synced_at ≤ now →
      (r.latency_profile.q1 ≤ r.latency_profile.q3 ∨
        r.latency_profile.median ≤ 0) →
      healthScore now parse (some r) ≤ 100) := by
  have hv : verificationPenalty r.verified ≤ 20 := by
    unfold verificationPenalty; split <;> norm_num
  have hv0 : 0 ≤ verificationPenalty r.verified := by
    unfold verificationPenalty; split <;> norm_num
  refine ⟨rfl, le_max_left 0 _, ?_, ?_⟩
  · have hj : jitterPenalty r.latency_profile ≤ 30 := min_le_left _ _
    have ha : agePenalty now (parse r.synced_at) ≤ 40 := min_le_left _ _
    have h10 : (10 : ℤ) ≤ jsRound (100 - jitterPenalty r.latency_profile -
        agePenalty now (parse r.synced_at) -
        verificationPenalty r.verified) := by
      rw [jsRound, Int.le_floor]
      push_cast
      linarith
    exact le_max_of_le_right h10
  · intro hage hprof
    have hj0 : 0 ≤ jitterPenalty r.latency_profile := by
      unfold jitterPenalty
      refine le_min (by norm_num) ?_
      refine mul_nonneg ?_ (by norm_num)
      split
      · rcases hprof with hq | hm
        · exact div_nonneg (by linarith) (by linarith)
        · linarith
      · exact le_refl 0
    have ha0 : 0 ≤ agePenalty now (parse r.synced_at) := by
      unfold agePenalty
      refine le_min (by norm_num) ?_
      refine mul_nonneg (div_nonneg (by linarith) (by norm_num)) (by norm_num)
    have h100 : jsRound (100 - jitterPenalty r.latency_profile -
        agePenalty now (parse r.synced_at) -
        verificationPenalty r.verified) ≤ 100 := by
      have : jsRound (100 - jitterPenalty r.latency_profile -
          agePenalty now (parse r.synced_at) -
          verificationPenalty r.verified) < 101 := by
        rw [jsRound]
        refine Int.floor_lt.mpr ?_
        push_cast
        linarith
      omega
    exact max_le (by norm_num) h100

/-- Witness for C9 on a concrete input: `Date.now() = 1000000`, constant
parse to epoch 0, and a verified recent result with `q1 ≤ q3` yield a
score within the claimed upper bound. -/
theorem healthScore_range_witness :
    healthScore 1000000 (fun _ => 0) (some sampleResult) ≤ 100 :=
  (healthScore_range 1000000 (fun _ => 0) sampleResult).2.2.2
    (by norm_num) (Or.inl (by norm_num [sampleResult, sampleProfile]))

/-- C10: the drift-rate regression is total: it returns `null` exactly
when the history has fewer than two results or the regression denominator
`n·ΣT² − (ΣT)²` is zero (so the division is never performed with a zero
denominator), and `driftStatus` is `"Unknown"` exactly when `driftRate`
is `null`. -/
theorem driftRate_none_iff (parse : String → ℚ)
    (syncHistory : List SyncResult) :
    (driftRate parse syncHistory = none ↔
      syncHistory.length < 2 ∨ driftDenom parse syncHistory = 0) ∧
    (driftStatus parse syncHistory = "Unknown" ↔
      driftRate parse syncHistory = none) := by
  constructor
  · unfold driftRate driftDenom
    by_cases hl : syncHistory.length < 2
    · simp [hl]
    · simp only [if_neg hl]
      split_ifs with hd
      · simp [hd]
      · simp [hd, hl]
  · unfold driftStatus
    rcases hdr : driftRate parse syncHistory with _ | d
    · simp
    · simp only []
      constructor
      · intro hs
        split_ifs at hs <;> simp_all
      · intro hn
        exact absurd hn (by simp)

/-- C4: `start_sync` enforces at most one active run per server target: a
second `start_sync` on an already-active id returns `AlreadyRunning` and
changes nothing, a `start_sync` on an inactive id activates exactly that
id, and the active-runs map never holds a duplicate id, so at most one
run per target is active at any time. -/
theorem startSync_at_most_one_run (active : List ℚ) (id : ℚ) :
    (id ∈ active → startSyncRun active id = .error .alreadyRunning) ∧
    (id ∉ active → startSyncRun active id = .ok (id :: active)) ∧
    (active.Nodup → ∀ a', startSyncRun active id = .ok a' →
      a'.Nodup ∧ a'.count id = 1) := by
  refine ⟨fun h => by simp [startSyncRun, h],
    fun h => by simp [startSyncRun, h], fun hnd a' hok => ?_⟩
  by_cases hmem : id ∈ active
  · simp only [startSyncRun, if_pos hmem] at hok
    exact absurd hok (by simp)
  · simp only [startSyncRun, if_neg hmem] at hok
    obtain rfl : a' = id :: active := by
      injection hok with h
      exact h.symm
    constructor
    · exact List.nodup_cons.mpr ⟨hmem, hnd⟩
    · have hz : List.count id active = 0 :=
        List.count_eq_zero_of_not_mem hmem
      simp [List.count_cons, hz]

/-- Witness for C4 at a concrete state: starting id 1 while `[1]` is
active returns `AlreadyRunning`, and starting id 2 from `[1]` yields a
duplicate-free map holding 2 exactly once. -/
theorem startSync_at_most_one_run_witness :
    startSyncRun [1] 1 = .error .alreadyRunning ∧
    (List.count 2 [2, 1] = 1) := by
  refine ⟨(startSync_at_most_one_run [1] 1).1 (by simp), ?_⟩
  exact ((startSync_at_most_one_run [1] 2).2.2 (by simp) [2, 1]
    (by simp [startSyncRun])).2

/-- C6: `delete_server` with a server id removes exactly the registered
record with that id (a record survives iff it was present and has a
different id, and is kept unchanged), and terminates any sync run active
on that server while leaving runs of other servers untouched. -/
theorem deleteServer_removes_exactly (st : EngineState) (id : ℚ)
    (s : Server) (j : ℚ) :
    (s ∈ (deleteServer st id).servers ↔ s ∈ st.servers ∧ s.id ≠ id) ∧
    id ∉ (deleteServer st id).active ∧
    (j ≠ id → (j ∈ (deleteServer st id).active ↔ j ∈ st.active)) := by
  refine ⟨?_, ?_, fun hj => ?_⟩
  · simp [deleteServer]
  · simp [deleteServer]
  · simp [deleteServer, hj]

/-- Witness for C6 at a concrete state: deleting server 1 from a
two-server state with runs active on 1 and 2 keeps server 2's record,
ends server 1's run and keeps server 2's run. -/
theorem deleteServer_removes_exactly_witness :
    (2 : ℚ) ∈ (deleteServer ⟨[], [1, 2]⟩ 1).active := by
  have h := (deleteServer_removes_exactly ⟨[], [1, 2]⟩ 1
    sampleServer 2).2.2 (by norm_num)
  exact h.mpr (by simp)

/-- Taking a prefix does not change a nonempty head. -/
lemma head?_take {α : Type} (k : ℕ) (l : List α) (x : α)
    (h : (l.take k).head? = some x) : l.head? = some x := by
  cases k with
  | zero => simp at h
  | succ k =>
      cases l with
      | nil => simp at h
      | cons a t => simpa using h

/-- The head of a list sorted by a reflexive-at-the-head relation is
related to every member. -/
lemma head?_sorted_rel {α : Type} {r : α → α → Prop} {l : List α}
    (hs : l.Sorted r) {x : α} (hx : l.head? = some x) (hrefl : r x x) :
    ∀ y ∈ l, r x y := by
  cases l with
  | nil => simp at hx
  | cons a t =>
      obtain rfl : a = x := by simpa using hx
      intro y hy
      rcases List.mem_cons.mp hy with rfl | h
      · exact hrefl
      · exact List.rel_of_sorted_cons hs y h

/-- C5: `get_sync_history` returns the matching stored results ordered
newest first, so whenever the returned sequence is nonempty its first
element is at least as recent as every stored result for that server that
meets the `since` bound (in particular it is the most recent returned
result). -/
theorem getSyncHistory_newest_first (parse : String → ℚ)
    (store : List SyncResult) (id : ℚ) (since : Option ℚ)
    (limit : Option ℕ) :
    (getSyncHistory parse store id since limit).Sorted
      (newestFirst parse) ∧
    (∀ r ∈ store, historyMatches parse id since r = true →
      ∀ x, (getSyncHistory parse store id since limit).head? = some x →
        parse r.synced_at ≤ parse x.synced_at) := by
  have hsorted : (List.insertionSort (newestFirst parse)
      (store.filter (historyMatches parse id since))).Sorted
      (newestFirst parse) :=
    List.sorted_insertionSort _ _
  constructor
  · exact List.Pairwise.sublist (List.take_sublist _ _) hsorted
  · intro r hr hm x hx
    have hrs : r ∈ List.insertionSort (newestFirst parse)
        (store.filter (historyMatches parse id since)) :=
      (List.perm_insertionSort _ _).mem_iff.mpr
        (List.mem_filter.mpr ⟨hr, hm⟩)
    have hx' : ((List.insertionSort (newestFirst parse)
        (store.filter (historyMatches parse id since))).take
          ((limit).getD (List.insertionSort (newestFirst parse)
            (store.filter (historyMatches parse id since))).length)).head? =
        some x := hx
    have hxhead := head?_take _ _ _ hx'
    exact head?_sorted_rel hsorted hxhead (le_refl _) r hrs

/-- C7: serialising any `SyncResult` (as by `syncHistoryToJson`) and
parsing the serialisation back yields the original value field-for-field:
a single result decodes to itself, and a whole history parses back to the
original list. -/
theorem syncHistory_json_roundtrip (r : SyncResult)
    (results : List SyncResult) :
    decodeSyncResult (encodeSyncResult r) = some r ∧
    parseSyncHistory (syncHistoryToJson results) = some results := by
  refine ⟨decodeSyncResult_encode r, ?_⟩
  have h : ∀ rs : List SyncResult,
      decodeSyncResults (rs.map encodeSyncResult) = some rs := by
    intro rs
    induction rs with
    | nil => rfl
    | cons x xs ih =>
        simp only [List.map_cons, decodeSyncResults,
          decodeSyncResult_encode, ih]
  exact h results

/-- Witness for C5 on a concrete store: with two stored results for
server 1 the head of the returned history is at least as recent as the
older stored result. -/
theorem getSyncHistory_newest_first_witness :
    sampleParse historyResultA.synced_at ≤
      sampleParse historyResultB.synced_at :=
  (getSyncHistory_newest_first sampleParse [historyResultA, historyResultB]
      1 none none).2 historyResultA (by simp) (by decide) historyResultB
    (by decide)

end Ticketime
